import Mathlib

/-!
Formal model of the lect-audio-explorer client logic.

Each definition is a shallow embedding of a function of the repository:

* `LectAudio.loadAudio`, `LectAudio.playSegment`, `LectAudio.stop` embed the
  `AudioProcessor` methods of `src/lib/audio.ts`.  JavaScript numbers are
  modelled as rationals (`ℚ`); the value passed for `startTime` is modelled by
  `JSVal`, which distinguishes non-numbers and `NaN` the way the runtime check
  `typeof startTime !== 'number' || isNaN(startTime)` does.  The browser
  environment (whether `decodeAudioData` succeeds, whether the media element
  fires `canplaythrough`, whether `audioElement.play()` resolves) is passed in
  as explicit parameters, since it is input from the point of view of the code.
* String-truthiness of the JavaScript `||` operator is embedded by `jsOr`
  (the empty string is the only falsy string).
-/

namespace LectAudio

/-- Value supplied for the `startTime` parameter of `playSegment`: a genuine
number, `NaN`, or a value that is not a number at all. -/
inductive JSVal where
  | notNum : JSVal
  | nan : JSVal
  | num : ℚ → JSVal
  deriving DecidableEq, Repr

/-- Embeds the JavaScript string fallback `s || d`: the empty string is the
only falsy string, every other string is returned unchanged. -/
def jsOr (s d : String) : String :=
  if s = "" then d else s

/-- Embeds `x || d` where `x` may also be `undefined`/`null` (modelled by
`none`). -/
def jsOrOpt (s : Option String) (d : String) : String :=
  match s with
  | none => d
  | some v => jsOr v d

/-- Arguments passed to `AudioBufferSourceNode.start(0, offset, dur)` by
`playSegment`: the playback offset into the decoded buffer and the duration. -/
structure SourceInfo where
  offset : ℚ
  dur : ℚ
  deriving DecidableEq, Repr

/-- Observable state of an `AudioProcessor` (src/lib/audio.ts): the
`isLoaded` and `loadError` flags, the decoded buffer (represented by its
duration, `none` when decoding failed or never ran), the currently playing
buffer source node, and the media element's playing flag and current time. -/
structure AudioState where
  isLoaded : Bool
  loadError : Option String
  audioBuffer : Option ℚ
  sourceNode : Option SourceInfo
  elementPlaying : Bool
  elementTime : ℚ
  deriving DecidableEq, Repr

/-- Embeds `AudioProcessor.stop`: drops the buffer source node and pauses the
media element. -/
def stop (st : AudioState) : AudioState :=
  { st with sourceNode := none, elementPlaying := false }

/-- Embeds `AudioProcessor.loadAudio`.  `hasFile` models whether a file was
passed; `decodeRes` models the outcome of `audioContext.decodeAudioData`
(`Except.ok d` = decoded buffer of duration `d`, `Except.error m` = rejection
with message `m`); `elemOk` models whether the media element reached
`canplaythrough` (true) or fired `error` (false), in which case the load
promise rejects with message "Failed to load audio file".  Returns the thrown
error or success, together with the updated processor state.  (Object-URL
bookkeeping is omitted: no claim observes it.) -/
def loadAudio (st : AudioState) (hasFile : Bool) (decodeRes : Except String ℚ)
    (elemOk : Bool) : Except String Unit × AudioState :=
  if hasFile = false then
    (Except.error "No file provided to loadAudio",
     { st with loadError := some "No file provided to loadAudio" })
  else
    let st0 := { st with isLoaded := false, loadError := none }
    let st1 :=
      match decodeRes with
      | Except.ok d => { st0 with audioBuffer := some d }
      | Except.error m =>
          { st0 with loadError := some ("Failed to decode audio: " ++ jsOr m "Unknown error") }
    if elemOk = true then
      (Except.ok (), { st1 with isLoaded := true })
    else
      (Except.error "Failed to load audio file",
       { st1 with isLoaded := false,
                  loadError := some ("Error loading audio: " ++
                    jsOr "Failed to load audio file" "Unknown error") })

/-- Embeds `AudioProcessor.playSegment(startTime, duration)`.  `elemPlay`
models the outcome of `audioElement.play()` (`none` = resolves, `some msg` =
rejects with message `msg`).  Mirrors the source: the `isLoaded` guard, the
`typeof`/`isNaN` validation, `stop()`, clamping of a negative start time to 0,
resetting a start time beyond the buffer duration to 0, the
`min(duration, bufferDuration - startTime)` computation passed to
`sourceNode.start`, and the element-path fallback in which an element playback
error is swallowed when a buffer source node exists and rethrown (wrapped by
the outer catch) when none does. -/
def playSegment (st : AudioState) (elemPlay : Option String) (startTime : JSVal)
    (duration : ℚ) : Except String Unit × AudioState :=
  if st.isLoaded = false then
    (Except.error (jsOrOpt st.loadError "Audio not loaded properly"), st)
  else
    match startTime with
    | JSVal.notNum => (Except.error "Invalid start time", st)
    | JSVal.nan => (Except.error "Invalid start time", st)
    | JSVal.num t0 =>
      let st1 := stop st
      let t1 : ℚ := if t0 < 0 then 0 else t0
      let t2 : ℚ :=
        match st.audioBuffer with
        | some d => if t1 > d then 0 else t1
        | none => t1
      match st.audioBuffer with
      | some d =>
        let actualDuration := min duration (d - t2)
        let st2 := { st1 with sourceNode := some ⟨t2, actualDuration⟩ }
        match elemPlay with
        | none => (Except.ok (), { st2 with elementTime := t2, elementPlaying := true })
        | some _ => (Except.ok (), { st2 with elementTime := t2 })
      | none =>
        match elemPlay with
        | none => (Except.ok (), { st1 with elementTime := t2, elementPlaying := true })
        | some msg =>
          (Except.error ("Failed to play audio: " ++ jsOr msg "Unknown error"),
           { st1 with elementTime := t2 })

/-- Embeds the call `playSegment(startTime)` with the declared default
`duration = 120` of src/lib/audio.ts. -/
def playSegmentDefault (st : AudioState) (elemPlay : Option String)
    (startTime : JSVal) : Except String Unit × AudioState :=
  playSegment st elemPlay startTime 120

/-- Check that the list `s` starts with the list `sub`. -/
def startsList : List Char → List Char → Bool
  | [], _ => true
  | _ :: _, [] => false
  | a :: as, b :: bs => a = b && startsList as bs

/-- Check that `sub` occurs contiguously inside `s`. -/
def containsList (sub : List Char) : List Char → Bool
  | [] => startsList sub []
  | c :: t => startsList sub (c :: t) || containsList sub t

/-- Embeds the JavaScript `s.includes(sub)` substring test. -/
def strContains (s sub : String) : Bool :=
  containsList sub.toList s.toList

/-- A browser `File`: name, size in bytes, and MIME type.  The byte contents
are not modelled; slicing is represented by byte ranges. -/
structure FileRec where
  name : String
  size : ℕ
  type : String
  deriving DecidableEq, Repr

/-- Result of `URL.createObjectURL(file)`: a transient URL determined by the
file it wraps. -/
structure ObjectURL where
  file : FileRec
  deriving DecidableEq, Repr

/-- The `AudioFile` record of src/types/lecture.ts handed to
`onFileSelected`. -/
structure AudioFileRec where
  name : String
  size : ℕ
  type : String
  url : ObjectURL
  file : FileRec
  deriving DecidableEq, Repr

/-- Embeds `processFile` of src/components/LectureUploader.tsx.  Returns the
list of calls made to `onFileSelected`: empty when the file is rejected (a
toast is shown instead), a singleton with the wrapped `AudioFile` when it is
accepted. -/
def processFile (f : FileRec) : List AudioFileRec :=
  if strContains f.type "audio" = false then []
  else if f.size > 100 * 1024 * 1024 then []
  else [{ name := f.name, size := f.size, type := f.type, url := ⟨f⟩, file := f }]

/-- A chunk produced by `chunkAudioFile` of src/lib/openai.ts: a `File` whose
contents are the byte range `[start, stop)` of the original file. -/
structure FileChunk where
  name : String
  start : ℕ
  stop : ℕ
  type : String
  deriving DecidableEq, Repr

/-- Embeds `chunkAudioFile(file, chunkSize)` of src/lib/openai.ts: computes
`totalChunks = ceil(size / chunkSize)` and, for each index `i`, slices bytes
`[i * chunkSize, min(i * chunkSize + chunkSize, size))` into a chunk named
`name.part(i+1)` with the original MIME type. -/
def chunkAudioFile (f : FileRec) (chunkSize : ℕ) : List FileChunk :=
  let totalChunks := (f.size + chunkSize - 1) / chunkSize
  (List.range totalChunks).map (fun i =>
    { name := f.name ++ ".part" ++ toString (i + 1),
      start := i * chunkSize,
      stop := min (i * chunkSize + chunkSize) f.size,
      type := f.type })

/-- The declared default chunk size `25 * 1024 * 1024` of `chunkAudioFile`. -/
def chunkAudioFileDefault (f : FileRec) : List FileChunk :=
  chunkAudioFile f (25 * 1024 * 1024)

/-- A transcript segment (src/types/lecture.ts `TranscriptionSegment`): `stop`
embeds the source field named `end`, which is a reserved word here. -/
structure TranscriptionSegment where
  id : ℚ
  start : ℚ
  stop : ℚ
  text : String
  deriving DecidableEq, Repr

/-- A raw topic as returned by the topic-extraction service or the mock
fallback of `extractTopics`: all fields may be absent (`none` embeds a missing
or non-numeric JSON field). -/
structure RawTopic where
  topic : Option String
  title : Option String
  description : Option String
  start : Option ℚ
  stop : Option ℚ
  deriving DecidableEq, Repr

/-- The fixed three mock topics returned by `extractTopics` of
src/components/TranscriptProcessor.tsx when the request fails. -/
def mockTopics : List RawTopic :=
  [{ topic := some "Introduction", title := none,
     description := some "Overview of the lecture content",
     start := some 0, stop := some 60 },
   { topic := some "Main Concepts", title := none,
     description := some "Discussion of key theoretical concepts",
     start := some 61, stop := some 180 },
   { topic := some "Practical Applications", title := none,
     description := some "Real-world applications of the material",
     start := some 181, stop := some 300 }]

/-- Embeds `extractTopics(transcript)` of
src/components/TranscriptProcessor.tsx.  `fetched` models the outcome of the
`fetch` to the extract-topics endpoint: `Except.error ()` a rejected request,
`Except.ok none` a response whose `topics` field is falsy (missing or null),
`Except.ok (some ts)` a response carrying topics `ts`.  An empty transcript
short-circuits to the empty list before any request is made. -/
def extractTopics (transcript : String)
    (fetched : Except Unit (Option (List RawTopic))) : List RawTopic :=
  if transcript = "" then []
  else
    match fetched with
    | Except.error _ => mockTopics
    | Except.ok none => mockTopics
    | Except.ok (some ts) => ts

/-- A formatted topic (src/types/lecture.ts `Topic`): `stop` embeds the
source field named `end`. -/
structure Topic where
  id : String
  title : String
  start : ℚ
  stop : ℚ
  description : String
  segments : List ℕ
  deriving DecidableEq, Repr

/-- Embeds one element of the `formattedTopics` map in `processAudio`
(src/components/TranscriptProcessor.tsx): fields default via `||`, the start
and end default to 0 when not numeric, and `segments` collects the indices of
the transcript segments whose time range overlaps the topic span, by mapping
each segment to its index (or null) and filtering out the nulls. -/
def formatTopic (transcriptSegments : List TranscriptionSegment) (index : ℕ)
    (topic : RawTopic) : Topic :=
  let topicStart : ℚ := match topic.start with | some q => q | none => 0
  let topicEnd : ℚ := match topic.stop with | some q => q | none => 0
  let topicSegments :=
    (transcriptSegments.enum.map (fun p =>
      if p.2.stop ≥ topicStart ∧ p.2.start ≤ topicEnd then some p.1
      else none)).filterMap id
  { id := toString index,
    title := jsOrOpt topic.topic
      (jsOrOpt topic.title ("Topic " ++ toString (index + 1))),
    description := jsOrOpt topic.description "No description available",
    start := topicStart,
    stop := topicEnd,
    segments := topicSegments }

/-- Embeds the whole `formattedTopics` computation: the extracted topics are
mapped with their index. -/
def formattedTopics (transcriptSegments : List TranscriptionSegment)
    (topics : List RawTopic) : List Topic :=
  topics.enum.map (fun p => formatTopic transcriptSegments p.1 p.2)

/-- Embeds JavaScript `toLowerCase`, mapping each character to lower case. -/
def strToLower (s : String) : String :=
  String.mk (s.data.map Char.toLower)

/-- Embeds `filteredSegments` of src/components/SegmentedTranscript.tsx: with
a truthy (non-empty) query, keep the segments whose lowercased text contains
the lowercased query; otherwise all segments. -/
def filteredSegments (searchQuery : String)
    (segments : List TranscriptionSegment) : List TranscriptionSegment :=
  if searchQuery ≠ "" then
    segments.filter (fun s =>
      strContains (strToLower s.text) (strToLower searchQuery))
  else segments

/-- Embeds `filteredTopics` of src/components/TopicNavigator.tsx: with a
falsy (empty) query, all topics (or `[]` when the stored data is null);
otherwise the topics whose lowercased title or description contains the
lowercased query. -/
def filteredTopics (searchQuery : String) (topics : Option (List Topic)) :
    List Topic :=
  if searchQuery = "" then topics.getD []
  else
    let query := strToLower searchQuery
    (topics.map (fun ts =>
      ts.filter (fun t =>
        strContains (strToLower t.title) query ||
        strContains (strToLower t.description) query))).getD []

/-- Embeds the JavaScript `title.split(' ')` on a character list: splitting
on single spaces, keeping empty components (so a leading space yields an
empty first component, and the empty string yields one empty component). -/
def splitOnSpace : List Char → List (List Char)
  | [] => [[]]
  | c :: t =>
      if c = ' ' then [] :: splitOnSpace t
      else
        match splitOnSpace t with
        | [] => [[c]]
        | w :: ws => (c :: w) :: ws

/-- Embeds the category key of `categorizeTopics`
(src/components/TopicNavigator.tsx): the lowercased first component of
`title.split(' ')`, falling back to "general" when that component is the
empty string, per the `||` operator. -/
def categoryKey (t : Topic) : String :=
  let title := jsOr t.title ""
  jsOr (strToLower (String.mk ((splitOnSpace title.data).headD []))) "general"

/-- Category key as the claim C9 words it: the lowercased first
space-separated word of the title, with "general" only when the title is
empty (or missing, which the total `title` field renders as the empty
string). -/
def claimedCategoryKey (t : Topic) : String :=
  if t.title = "" then "general"
  else strToLower (String.mk ((splitOnSpace t.title.data).headD []))

/-- Embeds the `Map` update of `categorizeTopics`: append the topic to the
entry with its category key, keeping insertion order of keys, or add a new
entry at the end. -/
def insertCat : List (String × List Topic) → String → Topic →
    List (String × List Topic)
  | [], k, t => [(k, [t])]
  | (k2, ts) :: rest, k, t =>
      if k2 = k then (k2, ts ++ [t]) :: rest
      else (k2, ts) :: insertCat rest k t

/-- Embeds `categorizeTopics` of src/components/TopicNavigator.tsx: group the
topics by category key into an insertion-ordered map, returned as its entry
list. -/
def categorizeTopics (topics : List Topic) : List (String × List Topic) :=
  topics.foldl (fun cats t => insertCat cats (categoryKey t) t) []

/-- A transcript (src/types/lecture.ts `Transcript`): full text plus
time-stamped segments. -/
structure Transcript where
  text : String
  segments : List TranscriptionSegment
  deriving DecidableEq, Repr

/-- The stored value (src/types/lecture.ts `TranscriptionResponse`): the
transcript together with the formatted topics, as assembled by `processAudio`
and written under the key "lectureTranscript". -/
structure TranscriptionResponse where
  transcript : Transcript
  topics : List Topic
  deriving DecidableEq, Repr

/-- Modelled from the spec: the key-value store serializes values as JSON
("serializes the transcript+topics result to the browser's key-value
storage"); `JValue` is the JSON value tree that `JSON.stringify` writes and
`JSON.parse` reads back. -/
inductive JValue where
  | jnull : JValue
  | jbool : Bool → JValue
  | jnum : ℚ → JValue
  | jstr : String → JValue
  | jarr : List JValue → JValue
  | jobj : List (String × JValue) → JValue

/-- Field access on a JSON object. -/
def jGet (j : JValue) (k : String) : Option JValue :=
  match j with
  | JValue.jobj fields => fields.lookup k
  | _ => none

/-- A natural number as a JSON number. -/
def encNat (n : ℕ) : JValue :=
  JValue.jnum (n : ℚ)

/-- Read back a natural number from a JSON number. -/
def decNat (j : JValue) : Option ℕ :=
  match j with
  | JValue.jnum q => if q.den = 1 ∧ 0 ≤ q.num then some q.num.toNat else none
  | _ => none

/-- Decode a list of JSON values elementwise, failing when any element
fails. -/
def decodeListAux {α : Type} (dec : JValue → Option α) :
    List JValue → Option (List α)
  | [] => some []
  | j :: rest =>
      match dec j, decodeListAux dec rest with
      | some a, some as => some (a :: as)
      | _, _ => none

/-- Decode every element of a JSON array. -/
def decodeList {α : Type} (dec : JValue → Option α) (j : JValue) :
    Option (List α) :=
  match j with
  | JValue.jarr l => decodeListAux dec l
  | _ => none

/-- JSON form of a transcript segment, with its source field names. -/
def encodeSegment (s : TranscriptionSegment) : JValue :=
  JValue.jobj [("id", JValue.jnum s.id), ("start", JValue.jnum s.start),
    ("end", JValue.jnum s.stop), ("text", JValue.jstr s.text)]

/-- Read back a transcript segment from its JSON form. -/
def decodeSegment (j : JValue) : Option TranscriptionSegment :=
  match jGet j "id", jGet j "start", jGet j "end", jGet j "text" with
  | some (JValue.jnum i), some (JValue.jnum st), some (JValue.jnum en),
      some (JValue.jstr tx) => some ⟨i, st, en, tx⟩
  | _, _, _, _ => none

/-- JSON form of a formatted topic, with its source field names. -/
def encodeTopic (t : Topic) : JValue :=
  JValue.jobj [("id", JValue.jstr t.id), ("title", JValue.jstr t.title),
    ("start", JValue.jnum t.start), ("end", JValue.jnum t.stop),
    ("description", JValue.jstr t.description),
    ("segments", JValue.jarr (t.segments.map encNat))]

/-- Read back a formatted topic from its JSON form. -/
def decodeTopic (j : JValue) : Option Topic :=
  match jGet j "id", jGet j "title", jGet j "start", jGet j "end",
      jGet j "description", jGet j "segments" with
  | some (JValue.jstr i), some (JValue.jstr ti), some (JValue.jnum st),
      some (JValue.jnum en), some (JValue.jstr d), some segsJ =>
      (decodeList decNat segsJ).map (fun segs => ⟨i, ti, st, en, d, segs⟩)
  | _, _, _, _, _, _ => none

/-- JSON form of the stored transcript-plus-topics value, mirroring the
`transcriptData` object literal of `processAudio`. -/
def serializeResponse (r : TranscriptionResponse) : JValue :=
  JValue.jobj
    [("transcript", JValue.jobj
        [("text", JValue.jstr r.transcript.text),
         ("segments", JValue.jarr (r.transcript.segments.map encodeSegment))]),
     ("topics", JValue.jarr (r.topics.map encodeTopic))]

/-- Read back the stored transcript-plus-topics value, as the topic navigator
does through the same storage hook. -/
def deserializeResponse (j : JValue) : Option TranscriptionResponse :=
  match jGet j "transcript", jGet j "topics" with
  | some tj, some toj =>
      match jGet tj "text", jGet tj "segments" with
      | some (JValue.jstr tx), some segsJ =>
          match decodeList decodeSegment segsJ, decodeList decodeTopic toj with
          | some segs, some tops => some ⟨⟨tx, segs⟩, tops⟩
          | _, _ => none
      | _, _ => none
  | _, _ => none

/-- Modelled from the spec: the browser key-value storage, written by the
processor and read by the navigator (the storage hook itself is not among the
sources); setting a key replaces any previous binding. -/
def storageSet (store : List (String × JValue)) (k : String) (v : JValue) :
    List (String × JValue) :=
  (k, v) :: store.filter (fun p => p.1 != k)

/-- Modelled from the spec: reading a key from the browser key-value
storage. -/
def storageGet (store : List (String × JValue)) (k : String) : Option JValue :=
  store.lookup k

/-- C1: for a loaded processor with a decoded buffer of duration `d ≥ 0`,
`playSegment(t, dur)` succeeds; a negative start time is adjusted to 0 and a
start time strictly greater than the buffer duration is reset to 0, the buffer
source node is started at the adjusted offset with duration
`min(dur, d - offset)`, the offset always lies within `[0, d]`, the played
duration never exceeds the requested one, and an omitted duration defaults to
120 seconds. -/
theorem playSegment_clamps_offset_and_duration (st : AudioState) (e : Option String)
    (t dur d : ℚ) (hL : st.isLoaded = true) (hB : st.audioBuffer = some d)
    (hd : 0 ≤ d) :
    (playSegment st e (JSVal.num t) dur).1 = Except.ok () ∧
    (playSegment st e (JSVal.num t) dur).2.sourceNode =
      some ⟨(if t < 0 then 0 else if t > d then 0 else t),
            min dur (d - (if t < 0 then 0 else if t > d then 0 else t))⟩ ∧
    0 ≤ (if t < 0 then 0 else if t > d then 0 else t) ∧
    (if t < 0 then 0 else if t > d then 0 else t) ≤ d ∧
    min dur (d - (if t < 0 then 0 else if t > d then 0 else t)) ≤ dur ∧
    playSegmentDefault st e (JSVal.num t) = playSegment st e (JSVal.num t) 120 := by
  have key : (if (if t < 0 then (0:ℚ) else t) > d then (0:ℚ)
                else (if t < 0 then (0:ℚ) else t)) =
      (if t < 0 then 0 else if t > d then 0 else t) := by
    split_ifs <;> linarith
  refine ⟨?_, ?_, ?_, ?_, ?_, rfl⟩
  · cases e <;> simp [playSegment, hL, hB]
  · cases e <;> simp [playSegment, hL, hB, key]
  · split_ifs <;> linarith
  · split_ifs <;> linarith
  · exact min_le_left _ _

/-- Witness for C1 at a concrete loaded state with buffer duration 10,
start time -3 and requested duration 5. -/
theorem playSegment_clamps_offset_and_duration_witness :
    (playSegment ⟨true, none, some 10, none, false, 0⟩ none (JSVal.num (-3)) 5).1 =
      Except.ok () ∧
    (playSegment ⟨true, none, some 10, none, false, 0⟩ none (JSVal.num (-3)) 5).2.sourceNode =
      some ⟨(if (-3:ℚ) < 0 then 0 else if (-3:ℚ) > 10 then 0 else -3),
            min 5 (10 - (if (-3:ℚ) < 0 then 0 else if (-3:ℚ) > 10 then 0 else -3))⟩ ∧
    0 ≤ (if (-3:ℚ) < 0 then (0:ℚ) else if (-3:ℚ) > 10 then 0 else -3) ∧
    (if (-3:ℚ) < 0 then (0:ℚ) else if (-3:ℚ) > 10 then 0 else -3) ≤ 10 ∧
    min 5 (10 - (if (-3:ℚ) < 0 then (0:ℚ) else if (-3:ℚ) > 10 then 0 else -3)) ≤ 5 ∧
    playSegmentDefault ⟨true, none, some 10, none, false, 0⟩ none (JSVal.num (-3)) =
      playSegment ⟨true, none, some 10, none, false, 0⟩ none (JSVal.num (-3)) 120 :=
  playSegment_clamps_offset_and_duration _ none (-3) 5 10 rfl rfl (by norm_num)

/-- C6: `playSegment` throws without touching playback state whenever the
processor is not loaded, with message equal to the stored `loadError` when one
is set (empty-string errors fall back, per the `||` operator) and "Audio not
loaded properly" otherwise; and a loaded processor throws "Invalid start time"
on a non-number or NaN start time, again leaving the state unchanged. -/
theorem playSegment_guard_errors (st : AudioState) (e : Option String) (x : JSVal)
    (dur : ℚ) (m : String) :
    (st.isLoaded = false →
        playSegment st e x dur =
          (Except.error (jsOrOpt st.loadError "Audio not loaded properly"), st)) ∧
    (st.isLoaded = false → st.loadError = some m → m ≠ "" →
        playSegment st e x dur = (Except.error m, st)) ∧
    (st.isLoaded = false → st.loadError = none →
        playSegment st e x dur = (Except.error "Audio not loaded properly", st)) ∧
    (st.isLoaded = true → x = JSVal.notNum ∨ x = JSVal.nan →
        playSegment st e x dur = (Except.error "Invalid start time", st)) := by
  refine ⟨?_, ?_, ?_, ?_⟩
  · intro h; simp [playSegment, h]
  · intro h hm hne; simp [playSegment, h, hm, jsOrOpt, jsOr, hne]
  · intro h hm; simp [playSegment, h, hm, jsOrOpt]
  · intro h hx
    rcases hx with hx | hx <;> subst hx <;> simp [playSegment, h]

/-- Witness for C6 at concrete states: an unloaded processor with stored error
"boom", an unloaded processor with no stored error, and a loaded processor
given a NaN start time. -/
theorem playSegment_guard_errors_witness :
    playSegment ⟨false, some "boom", none, none, false, 0⟩ none JSVal.nan 120 =
      (Except.error (jsOrOpt (some "boom") "Audio not loaded properly"),
       ⟨false, some "boom", none, none, false, 0⟩) ∧
    playSegment ⟨false, some "boom", none, none, false, 0⟩ none JSVal.nan 120 =
      (Except.error "boom", ⟨false, some "boom", none, none, false, 0⟩) ∧
    playSegment ⟨false, none, none, none, false, 0⟩ none JSVal.nan 120 =
      (Except.error "Audio not loaded properly", ⟨false, none, none, none, false, 0⟩) ∧
    playSegment ⟨true, none, some 10, none, false, 0⟩ none JSVal.nan 120 =
      (Except.error "Invalid start time", ⟨true, none, some 10, none, false, 0⟩) :=
  ⟨(playSegment_guard_errors ⟨false, some "boom", none, none, false, 0⟩ none
      JSVal.nan 120 "boom").1 rfl,
   (playSegment_guard_errors ⟨false, some "boom", none, none, false, 0⟩ none
      JSVal.nan 120 "boom").2.1 rfl rfl (by decide),
   (playSegment_guard_errors ⟨false, none, none, none, false, 0⟩ none
      JSVal.nan 120 "boom").2.2.1 rfl rfl,
   (playSegment_guard_errors ⟨true, none, some 10, none, false, 0⟩ none
      JSVal.nan 120 "boom").2.2.2 rfl (Or.inr rfl)⟩

/-- C4: the element path backs up the buffer path in both directions.  When
decoding fails but the media element becomes playable, `loadAudio` still
completes successfully with `isLoaded = true` and the decode failure recorded
in `loadError`; and `playSegment` swallows a media-element playback error
whenever a buffer source node was started (buffer present), rethrowing the
element error (wrapped by the outer catch) only when no buffer playback
exists. -/
theorem audio_dual_path_fallback (st : AudioState) (m emsg : String)
    (t dur d : ℚ) :
    ((loadAudio st true (Except.error m) true).1 = Except.ok () ∧
     (loadAudio st true (Except.error m) true).2.isLoaded = true ∧
     (loadAudio st true (Except.error m) true).2.loadError =
       some ("Failed to decode audio: " ++ jsOr m "Unknown error")) ∧
    (st.isLoaded = true → st.audioBuffer = some d →
        (playSegment st (some emsg) (JSVal.num t) dur).1 = Except.ok ()) ∧
    (st.isLoaded = true → st.audioBuffer = none →
        (playSegment st (some emsg) (JSVal.num t) dur).1 =
          Except.error ("Failed to play audio: " ++ jsOr emsg "Unknown error")) := by
  refine ⟨⟨?_, ?_, ?_⟩, ?_, ?_⟩
  · simp [loadAudio]
  · simp [loadAudio]
  · simp [loadAudio]
  · intro h1 h2; simp [playSegment, h1, h2]
  · intro h1 h2; simp [playSegment, h1, h2]

/-- Witness for C4 at concrete states: a decode failure "bad codec" with a
playable element, an element playback failure "autoplay blocked" with a buffer
present, and the same element failure with no buffer. -/
theorem audio_dual_path_fallback_witness :
    ((loadAudio ⟨false, none, none, none, false, 0⟩ true
        (Except.error "bad codec") true).1 = Except.ok () ∧
     (loadAudio ⟨false, none, none, none, false, 0⟩ true
        (Except.error "bad codec") true).2.isLoaded = true ∧
     (loadAudio ⟨false, none, none, none, false, 0⟩ true
        (Except.error "bad codec") true).2.loadError =
       some ("Failed to decode audio: " ++ jsOr "bad codec" "Unknown error")) ∧
    (playSegment ⟨true, none, some 10, none, false, 0⟩ (some "autoplay blocked")
        (JSVal.num 2) 30).1 = Except.ok () ∧
    (playSegment ⟨true, none, none, none, false, 0⟩ (some "autoplay blocked")
        (JSVal.num 2) 30).1 =
      Except.error ("Failed to play audio: " ++ jsOr "autoplay blocked" "Unknown error") :=
  ⟨(audio_dual_path_fallback ⟨false, none, none, none, false, 0⟩ "bad codec"
      "autoplay blocked" 2 30 10).1,
   (audio_dual_path_fallback ⟨true, none, some 10, none, false, 0⟩ "bad codec"
      "autoplay blocked" 2 30 10).2.1 rfl rfl,
   (audio_dual_path_fallback ⟨true, none, none, none, false, 0⟩ "bad codec"
      "autoplay blocked" 2 30 10).2.2 rfl rfl⟩

/-- The empty pattern occurs in every string, as with `includes`. -/
theorem containsList_nil (l : List Char) : containsList [] l = true := by
  cases l <;> simp [containsList, startsList]

/-- C5: `processFile` rejects a file (never calling `onFileSelected`) exactly
when its MIME type does not contain "audio" or its size exceeds
100 * 1024 * 1024 bytes; otherwise `onFileSelected` is called exactly once
with an `AudioFile` carrying the file name, size, type, an object URL created
for the file, and the file itself. -/
theorem processFile_validates (f : FileRec) :
    (strContains f.type "audio" = false ∨ f.size > 100 * 1024 * 1024 →
        processFile f = []) ∧
    (strContains f.type "audio" = true → f.size ≤ 100 * 1024 * 1024 →
        processFile f =
          [{ name := f.name, size := f.size, type := f.type, url := ⟨f⟩,
             file := f }]) := by
  constructor
  · rintro (h | h) <;> simp [processFile, h]
  · intro h1 h2
    simp [processFile, h1, Nat.not_lt.mpr h2]

/-- Witness for C5: a 1000-byte "audio/mpeg" file is accepted and wrapped; a
"text/plain" file is rejected. -/
theorem processFile_validates_witness :
    processFile ⟨"notes.txt", 10, "text/plain"⟩ = [] ∧
    processFile ⟨"lecture.mp3", 1000, "audio/mpeg"⟩ =
      [{ name := "lecture.mp3", size := 1000, type := "audio/mpeg",
         url := ⟨⟨"lecture.mp3", 1000, "audio/mpeg"⟩⟩,
         file := ⟨"lecture.mp3", 1000, "audio/mpeg"⟩ }] :=
  ⟨(processFile_validates ⟨"notes.txt", 10, "text/plain"⟩).1 (Or.inl (by decide)),
   (processFile_validates ⟨"lecture.mp3", 1000, "audio/mpeg"⟩).2 (by decide) (by decide)⟩

/-- C10: for a positive chunk size, `chunkAudioFile` returns exactly
`ceil(size / chunkSize)` chunks (the count `L` satisfies the ceiling bounds
`size ≤ cs * L` and, when `L > 0`, `cs * (L - 1) < size`), chunk `i` covers
the byte range from `i * cs` to `min((i + 1) * cs, size)` and keeps the MIME
type, every chunk is at most `cs` bytes, every chunk except possibly the last
is exactly `cs` bytes, consecutive chunks are adjacent (no gaps or overlap),
the first chunk starts at byte 0 and the last ends at the file size. -/
theorem chunkAudioFile_partitions (f : FileRec) (cs : ℕ) (hcs : 0 < cs) :
    (chunkAudioFile f cs).length = f.size ⌈/⌉ cs ∧
    f.size ≤ cs * (chunkAudioFile f cs).length ∧
    (0 < (chunkAudioFile f cs).length →
        cs * ((chunkAudioFile f cs).length - 1) < f.size) ∧
    (∀ i, ∀ h : i < (chunkAudioFile f cs).length,
        (chunkAudioFile f cs)[i] =
          ⟨f.name ++ ".part" ++ toString (i + 1), i * cs,
           min ((i + 1) * cs) f.size, f.type⟩ ∧
        (chunkAudioFile f cs)[i].stop - (chunkAudioFile f cs)[i].start ≤ cs) ∧
    (∀ i, ∀ h : i + 1 < (chunkAudioFile f cs).length,
        (chunkAudioFile f cs)[i].stop - (chunkAudioFile f cs)[i].start = cs ∧
        (chunkAudioFile f cs)[i].stop = (chunkAudioFile f cs)[i + 1].start) ∧
    (∀ h : 0 < (chunkAudioFile f cs).length,
        (chunkAudioFile f cs)[0].start = 0 ∧
        (chunkAudioFile f cs)[(chunkAudioFile f cs).length - 1].stop = f.size) := by
  have hlen : (chunkAudioFile f cs).length = f.size ⌈/⌉ cs := by
    simp [chunkAudioFile, Nat.ceilDiv_eq_add_pred_div]
  have hget : ∀ i, ∀ h : i < (chunkAudioFile f cs).length,
      (chunkAudioFile f cs)[i] =
        ⟨f.name ++ ".part" ++ toString (i + 1), i * cs,
         min (i * cs + cs) f.size, f.type⟩ := by
    intro i h
    simp [chunkAudioFile]
  have hub : f.size ≤ cs * ((chunkAudioFile f cs).length) := by
    rw [hlen]
    have h := le_smul_ceilDiv (α := ℕ) (β := ℕ) hcs (b := f.size)
    simpa [smul_eq_mul] using h
  have hmin : 0 < (chunkAudioFile f cs).length →
      cs * ((chunkAudioFile f cs).length - 1) < f.size := by
    rw [hlen]
    intro hpos
    by_contra hcon
    push_neg at hcon
    have hle : f.size ⌈/⌉ cs ≤ f.size ⌈/⌉ cs - 1 := by
      rw [ceilDiv_le_iff_le_smul hcs, smul_eq_mul]
      exact hcon
    omega
  refine ⟨hlen, hub, hmin, ?_, ?_, ?_⟩
  · intro i h
    refine ⟨?_, ?_⟩
    · rw [hget i h, Nat.succ_mul]
    · rw [hget i h]
      show min (i * cs + cs) f.size - i * cs ≤ cs
      generalize i * cs = a
      omega
  · intro i h
    have h1 : i < (chunkAudioFile f cs).length := by omega
    have hfull : i * cs + cs ≤ f.size := by
      have h2 : cs * (i + 1) ≤ cs * ((chunkAudioFile f cs).length - 1) :=
        Nat.mul_le_mul_left _ (by omega)
      have h3 : cs * (i + 1) < f.size := lt_of_le_of_lt h2 (hmin (by omega))
      rw [Nat.mul_succ, Nat.mul_comm cs i] at h3
      omega
    constructor
    · rw [hget i h1]
      show min (i * cs + cs) f.size - i * cs = cs
      generalize hfull2 : i * cs = a at hfull
      omega
    · rw [hget i h1, hget (i + 1) h]
      show min (i * cs + cs) f.size = (i + 1) * cs
      rw [Nat.succ_mul]
      generalize hfull2 : i * cs = a at hfull
      omega
  · intro hpos
    constructor
    · rw [hget 0 hpos]
      show 0 * cs = 0
      omega
    · rw [hget ((chunkAudioFile f cs).length - 1) (by omega)]
      show min (((chunkAudioFile f cs).length - 1) * cs + cs) f.size = f.size
      have h4 : f.size ≤ ((chunkAudioFile f cs).length - 1) * cs + cs := by
        calc f.size ≤ cs * (chunkAudioFile f cs).length := hub
          _ = cs * ((chunkAudioFile f cs).length - 1 + 1) := by
                congr 1
                omega
          _ = cs * ((chunkAudioFile f cs).length - 1) + cs := Nat.mul_succ cs _
          _ = ((chunkAudioFile f cs).length - 1) * cs + cs := by
                rw [Nat.mul_comm]
      generalize hA : ((chunkAudioFile f cs).length - 1) * cs = a at h4 ⊢
      omega

/-- Witness for C10 at a concrete file of 10 bytes and chunk size 4 (three
chunks of sizes 4, 4, 2). -/
theorem chunkAudioFile_partitions_witness :
    (chunkAudioFile ⟨"lec.mp3", 10, "audio/mpeg"⟩ 4).length =
      (10 : ℕ) ⌈/⌉ 4 ∧
    (10 : ℕ) ≤ 4 * (chunkAudioFile ⟨"lec.mp3", 10, "audio/mpeg"⟩ 4).length ∧
    (0 < (chunkAudioFile ⟨"lec.mp3", 10, "audio/mpeg"⟩ 4).length →
        4 * ((chunkAudioFile ⟨"lec.mp3", 10, "audio/mpeg"⟩ 4).length - 1) < 10) ∧
    (∀ i, ∀ h : i < (chunkAudioFile ⟨"lec.mp3", 10, "audio/mpeg"⟩ 4).length,
        (chunkAudioFile ⟨"lec.mp3", 10, "audio/mpeg"⟩ 4)[i] =
          ⟨"lec.mp3" ++ ".part" ++ toString (i + 1), i * 4,
           min ((i + 1) * 4) 10, "audio/mpeg"⟩ ∧
        (chunkAudioFile ⟨"lec.mp3", 10, "audio/mpeg"⟩ 4)[i].stop -
          (chunkAudioFile ⟨"lec.mp3", 10, "audio/mpeg"⟩ 4)[i].start ≤ 4) ∧
    (∀ i, ∀ h : i + 1 < (chunkAudioFile ⟨"lec.mp3", 10, "audio/mpeg"⟩ 4).length,
        (chunkAudioFile ⟨"lec.mp3", 10, "audio/mpeg"⟩ 4)[i].stop -
          (chunkAudioFile ⟨"lec.mp3", 10, "audio/mpeg"⟩ 4)[i].start = 4 ∧
        (chunkAudioFile ⟨"lec.mp3", 10, "audio/mpeg"⟩ 4)[i].stop =
          (chunkAudioFile ⟨"lec.mp3", 10, "audio/mpeg"⟩ 4)[i + 1].start) ∧
    (∀ h : 0 < (chunkAudioFile ⟨"lec.mp3", 10, "audio/mpeg"⟩ 4).length,
        (chunkAudioFile ⟨"lec.mp3", 10, "audio/mpeg"⟩ 4)[0].start = 0 ∧
        (chunkAudioFile ⟨"lec.mp3", 10, "audio/mpeg"⟩
          4)[(chunkAudioFile ⟨"lec.mp3", 10, "audio/mpeg"⟩ 4).length - 1].stop = 10) :=
  chunkAudioFile_partitions ⟨"lec.mp3", 10, "audio/mpeg"⟩ 4 (by decide)

/-- C3: for the empty transcript, `extractTopics` returns the empty list
whatever the service would answer (the request is never consulted); for a
non-empty transcript whose request rejects or yields no topics, it returns the
fixed three mock topics Introduction 0-60, Main Concepts 61-180, Practical
Applications 181-300 instead of propagating the error. -/
theorem extractTopics_mock_fallback (t : String)
    (r : Except Unit (Option (List RawTopic))) :
    extractTopics "" r = [] ∧
    (t ≠ "" → r = Except.error () ∨ r = Except.ok none →
        extractTopics t r =
          [{ topic := some "Introduction", title := none,
             description := some "Overview of the lecture content",
             start := some 0, stop := some 60 },
           { topic := some "Main Concepts", title := none,
             description := some "Discussion of key theoretical concepts",
             start := some 61, stop := some 180 },
           { topic := some "Practical Applications", title := none,
             description := some "Real-world applications of the material",
             start := some 181, stop := some 300 }]) := by
  constructor
  · simp [extractTopics]
  · rintro ht (rfl | rfl) <;> simp [extractTopics, ht, mockTopics]

/-- Witness for C3 with a concrete transcript "hello" and a rejected
request. -/
theorem extractTopics_mock_fallback_witness :
    extractTopics "" (Except.error ()) = [] ∧
    extractTopics "hello" (Except.error ()) =
      [{ topic := some "Introduction", title := none,
         description := some "Overview of the lecture content",
         start := some 0, stop := some 60 },
       { topic := some "Main Concepts", title := none,
         description := some "Discussion of key theoretical concepts",
         start := some 61, stop := some 180 },
       { topic := some "Practical Applications", title := none,
         description := some "Real-world applications of the material",
         start := some 181, stop := some 300 }] :=
  ⟨(extractTopics_mock_fallback "hello" (Except.error ())).1,
   (extractTopics_mock_fallback "hello" (Except.error ())).2 (by decide)
     (Or.inl rfl)⟩

/-- C2: the `segments` field stores exactly the indices `j` of transcript
segments overlapping the topic span — `j` is included iff
`segments[j].end >= topicStart` and `segments[j].start <= topicEnd`, with the
bounds defaulting to 0 when not numeric — and the indices are strictly
increasing. -/
theorem formatTopic_segments_overlap (segs : List TranscriptionSegment)
    (i : ℕ) (tp : RawTopic) (j : ℕ) :
    (j ∈ (formatTopic segs i tp).segments ↔
      ∃ h : j < segs.length,
        segs[j].stop ≥ (match tp.start with | some q => q | none => 0) ∧
        segs[j].start ≤ (match tp.stop with | some q => q | none => 0)) ∧
    (formatTopic segs i tp).segments.Pairwise (· < ·) := by
  constructor
  · simp only [formatTopic, List.filterMap_map, List.mem_filterMap,
      Function.comp]
    constructor
    · rintro ⟨⟨k, s⟩, hmem, hif⟩
      rw [List.mem_enum_iff_getElem?] at hmem
      by_cases hc : s.stop ≥ (match tp.start with | some q => q | none => 0) ∧
          s.start ≤ (match tp.stop with | some q => q | none => 0)
      · rw [if_pos hc] at hif
        obtain rfl : k = j := by simpa using hif
        rw [List.getElem?_eq_some_iff] at hmem
        obtain ⟨h, hs⟩ := hmem
        exact ⟨h, by rw [hs]; exact hc⟩
      · rw [if_neg hc] at hif
        simp at hif
    · rintro ⟨h, h1, h2⟩
      refine ⟨(j, segs[j]), ?_, ?_⟩
      · rw [List.mem_enum_iff_getElem?]
        exact List.getElem?_eq_getElem h
      · simp [h1, h2]
  · simp only [formatTopic, List.filterMap_map]
    have henum : segs.enum.Pairwise (fun a b => a.1 < b.1) := by
      have h1 : (segs.enum.map Prod.fst).Pairwise (· < ·) := by
        rw [List.enum_map_fst]
        exact List.pairwise_lt_range _
      exact List.pairwise_map.mp h1
    refine List.Pairwise.filterMap _ ?_ henum
    intro a b hab x hx y hy
    by_cases hca : a.2.stop ≥ (match tp.start with | some q => q | none => 0) ∧
        a.2.start ≤ (match tp.stop with | some q => q | none => 0) <;>
      by_cases hcb : b.2.stop ≥ (match tp.start with | some q => q | none => 0) ∧
          b.2.start ≤ (match tp.stop with | some q => q | none => 0) <;>
      simp [hca, hcb] at hx hy
    subst hx
    subst hy
    exact hab

/-- The empty pattern occurs in every string, as `includes` has it. -/
theorem strContains_empty (s : String) : strContains s "" = true :=
  containsList_nil s.toList

/-- Lowercasing the empty string gives the empty string. -/
theorem strToLower_empty : strToLower "" = "" := rfl

/-- C8: free-text search is case-insensitive substring filtering.  The
filtered transcript equals the segment list filtered by lowercased substring
containment of the lowercased query (so the empty query keeps everything),
and likewise the filtered topics equal the topics whose lowercased title or
description contains the lowercased query; both results are sublists of the
input, preserving its order. -/
theorem search_filters_characterization (q : String)
    (segs : List TranscriptionSegment) (tops : List Topic) :
    filteredSegments q segs =
      segs.filter (fun s => strContains (strToLower s.text) (strToLower q)) ∧
    (filteredSegments q segs).Sublist segs ∧
    filteredTopics q (some tops) =
      tops.filter (fun t =>
        strContains (strToLower t.title) (strToLower q) ||
        strContains (strToLower t.description) (strToLower q)) ∧
    (filteredTopics q (some tops)).Sublist tops := by
  have hseg : filteredSegments q segs =
      segs.filter (fun s => strContains (strToLower s.text) (strToLower q)) := by
    by_cases hq : q = ""
    · subst hq
      rw [filteredSegments, if_neg (by simp)]
      rw [eq_comm, List.filter_eq_self]
      intro a ha
      rw [strToLower_empty]
      exact strContains_empty _
    · simp [filteredSegments, hq]
  have htop : filteredTopics q (some tops) =
      tops.filter (fun t =>
        strContains (strToLower t.title) (strToLower q) ||
        strContains (strToLower t.description) (strToLower q)) := by
    by_cases hq : q = ""
    · subst hq
      rw [filteredTopics, if_pos rfl]
      rw [Option.getD_some, eq_comm, List.filter_eq_self]
      intro a ha
      rw [strToLower_empty]
      simp [strContains_empty]
    · simp [filteredTopics, hq]
  refine ⟨hseg, ?_, htop, ?_⟩
  · rw [hseg]; exact List.filter_sublist _
  · rw [htop]; exact List.filter_sublist _

/-- Inserting under the key of the head entry appends to that entry. -/
theorem insertCat_cons_same (k2 : String) (ts2 : List Topic)
    (rest : List (String × List Topic)) (t : Topic) :
    insertCat ((k2, ts2) :: rest) k2 t = (k2, ts2 ++ [t]) :: rest := by
  simp [insertCat]

/-- Inserting under a different key than the head entry recurses past it. -/
theorem insertCat_cons_diff {k2 k : String} (h : k2 ≠ k) (ts2 : List Topic)
    (rest : List (String × List Topic)) (t : Topic) :
    insertCat ((k2, ts2) :: rest) k t = (k2, ts2) :: insertCat rest k t := by
  simp [insertCat, h]

/-- Keys after a `Map` insertion: unchanged when the key is present, appended
at the end when it is new. -/
theorem keys_insertCat (G : List (String × List Topic)) (k : String) (t : Topic) :
    (insertCat G k t).map Prod.fst =
      if k ∈ G.map Prod.fst then G.map Prod.fst else G.map Prod.fst ++ [k] := by
  induction G with
  | nil => simp [insertCat]
  | cons p rest ih =>
    obtain ⟨k2, ts2⟩ := p
    by_cases h : k2 = k
    · subst h
      simp [insertCat]
    · by_cases hm : k ∈ rest.map Prod.fst <;>
        simp [insertCat, h, ih, hm, Ne.symm h]

/-- Concatenating all groups after a `Map` insertion is, up to permutation,
the old concatenation with the new topic appended. -/
theorem join_insertCat (G : List (String × List Topic)) (k : String) (t : Topic) :
    List.Perm ((insertCat G k t).map Prod.snd).flatten
      ((G.map Prod.snd).flatten ++ [t]) := by
  induction G with
  | nil => simp [insertCat]
  | cons p rest ih =>
    obtain ⟨k2, ts2⟩ := p
    by_cases h : k2 = k
    · subst h
      rw [insertCat_cons_same]
      simp only [List.map_cons, List.flatten_cons]
      rw [List.append_assoc, List.append_assoc]
      exact List.Perm.append_left ts2 List.perm_append_comm
    · rw [insertCat_cons_diff h]
      simp only [List.map_cons, List.flatten_cons]
      rw [List.append_assoc]
      exact List.Perm.append_left ts2 ih

/-- Case analysis for membership in a `Map` insertion with distinct keys: an
untouched old entry with a different key, the old entry for the key with the
topic appended, or a fresh singleton entry. -/
theorem mem_insertCat_cases (G : List (String × List Topic)) (k : String)
    (t : Topic) (hnd : (G.map Prod.fst).Nodup) (p : String × List Topic)
    (hp : p ∈ insertCat G k t) :
    (p ∈ G ∧ p.1 ≠ k) ∨
    (∃ ts0, (k, ts0) ∈ G ∧ p = (k, ts0 ++ [t])) ∨
    (k ∉ G.map Prod.fst ∧ p = (k, [t])) := by
  induction G with
  | nil =>
    simp only [insertCat, List.mem_singleton] at hp
    exact Or.inr (Or.inr ⟨by simp, hp⟩)
  | cons q rest ih =>
    obtain ⟨k2, ts2⟩ := q
    simp only [List.map_cons, List.nodup_cons] at hnd
    by_cases h : k2 = k
    · subst h
      rw [insertCat_cons_same] at hp
      rcases List.mem_cons.mp hp with rfl | hp2
      · exact Or.inr (Or.inl ⟨ts2, List.mem_cons_self _ _, rfl⟩)
      · refine Or.inl ⟨List.mem_cons_of_mem _ hp2, ?_⟩
        intro hpk
        exact hnd.1 (hpk ▸ List.mem_map_of_mem Prod.fst hp2)
    · rw [insertCat_cons_diff h] at hp
      rcases List.mem_cons.mp hp with rfl | hp2
      · exact Or.inl ⟨List.mem_cons_self _ _, h⟩
      · rcases ih hnd.2 hp2 with ⟨hm, hne⟩ | ⟨ts0, hm, rfl⟩ | ⟨hnm, rfl⟩
        · exact Or.inl ⟨List.mem_cons_of_mem _ hm, hne⟩
        · exact Or.inr (Or.inl ⟨ts0, List.mem_cons_of_mem _ hm, rfl⟩)
        · refine Or.inr (Or.inr ⟨?_, rfl⟩)
          simp only [List.map_cons, List.mem_cons]
          rintro (hk | hk)
          · exact h hk.symm
          · exact hnm hk

/-- One fold step of `categorizeTopics` over a snoc list. -/
theorem categorizeTopics_snoc (ts : List Topic) (t : Topic) :
    categorizeTopics (ts ++ [t]) =
      insertCat (categorizeTopics ts) (categoryKey t) t := by
  simp [categorizeTopics, List.foldl_append]

/-- Invariant of `categorizeTopics`: keys are distinct, each group is the
input filtered by its key, and every input topic's key has a group. -/
theorem categorize_invariant (topics : List Topic) :
    ((categorizeTopics topics).map Prod.fst).Nodup ∧
    (∀ p ∈ categorizeTopics topics,
        p.2 = topics.filter (fun t => categoryKey t = p.1)) ∧
    (∀ t ∈ topics, categoryKey t ∈ (categorizeTopics topics).map Prod.fst) := by
  induction topics using List.reverseRecOn with
  | nil => simp [categorizeTopics]
  | append_singleton ts t ih =>
    obtain ⟨hnd, hflt, hcov⟩ := ih
    rw [categorizeTopics_snoc]
    refine ⟨?_, ?_, ?_⟩
    · rw [keys_insertCat]
      split_ifs with hmem
      · exact hnd
      · simp [List.nodup_append, hnd, hmem]
    · intro p hp
      rcases mem_insertCat_cases _ _ _ hnd p hp with
        ⟨hm, hne⟩ | ⟨ts0, hm, rfl⟩ | ⟨hnm, rfl⟩
      · rw [hflt p hm, List.filter_append]
        have hnk : ¬(categoryKey t = p.1) := fun hh => hne hh.symm
        simp [hnk]
      · have h0 := hflt (categoryKey t, ts0) hm
        simp only at h0 ⊢
        rw [h0, List.filter_append]
        simp
      · simp only
        rw [List.filter_append]
        have h0 : ts.filter (fun t2 => categoryKey t2 = categoryKey t) = [] := by
          rw [List.filter_eq_nil_iff]
          intro a ha hk
          have hk2 : categoryKey a = categoryKey t := by simpa using hk
          exact hnm (hk2 ▸ hcov a ha)
        simp [h0]
    · intro t2 ht2
      rw [keys_insertCat]
      rcases List.mem_append.mp ht2 with h2 | h2
      · have hin := hcov t2 h2
        split_ifs <;> simp [hin]
      · simp only [List.mem_singleton] at h2
        subst h2
        split_ifs with hmem <;> simp [hmem]

/-- Counterexample to C9 as stated: for the topic titled " x" (leading
space), the code files it under "general", while the claimed key — the
lowercased first space-separated component of the title, with "general"
reserved for an empty or missing title — is the empty string. -/
theorem categorizeTopics_claimed_key_counterexample :
    categorizeTopics [(⟨"1", " x", 0, 0, "", []⟩ : Topic)] =
      [("general", [(⟨"1", " x", 0, 0, "", []⟩ : Topic)])] ∧
    claimedCategoryKey (⟨"1", " x", 0, 0, "", []⟩ : Topic) = "" ∧
    ("general" : String) ≠ "" := by
  refine ⟨by decide, by decide, by decide⟩

/-- C9 (amended): `categorizeTopics` is a partition keyed by `categoryKey` —
the lowercased first space-separated component of the title, with "general"
whenever that component is empty (empty, missing, or space-led title).  Each
group equals the input filtered by its key (so input order is kept within
groups), keys are distinct, every topic's key has a group, a topic belongs to
a group iff the group's key is the topic's key, and the concatenation of all
groups is a permutation of the input (every topic exactly once). -/
theorem categorizeTopics_partition (topics : List Topic) :
    (∀ p ∈ categorizeTopics topics,
        p.2 = topics.filter (fun t => categoryKey t = p.1)) ∧
    ((categorizeTopics topics).map Prod.fst).Nodup ∧
    (∀ t ∈ topics, categoryKey t ∈ (categorizeTopics topics).map Prod.fst) ∧
    (∀ t ∈ topics, ∀ p ∈ categorizeTopics topics,
        (t ∈ p.2 ↔ p.1 = categoryKey t)) ∧
    List.Perm ((categorizeTopics topics).map Prod.snd).flatten topics := by
  obtain ⟨hnd, hflt, hcov⟩ := categorize_invariant topics
  refine ⟨hflt, hnd, hcov, ?_, ?_⟩
  · intro t ht p hp
    rw [hflt p hp, List.mem_filter]
    constructor
    · rintro ⟨-, h⟩
      exact (by simpa using h : categoryKey t = p.1).symm
    · intro h
      exact ⟨ht, by simp [h]⟩
  · clear hnd hflt hcov
    induction topics using List.reverseRecOn with
    | nil => simp [categorizeTopics]
    | append_singleton ts t ih =>
      rw [categorizeTopics_snoc]
      exact (join_insertCat _ _ _).trans (ih.append_right [t])

/-- Witness for C9 at the concrete topic list containing the single topic
titled "Intro Basics", categorized under "intro". -/
theorem categorizeTopics_partition_witness :
    ("intro", [(⟨"0", "Intro Basics", 0, 1, "a", []⟩ : Topic)]).2 =
      [(⟨"0", "Intro Basics", 0, 1, "a", []⟩ : Topic)].filter
        (fun t2 => categoryKey t2 =
          ("intro", [(⟨"0", "Intro Basics", 0, 1, "a", []⟩ : Topic)]).1) ∧
    categoryKey (⟨"0", "Intro Basics", 0, 1, "a", []⟩ : Topic) ∈
      (categorizeTopics [(⟨"0", "Intro Basics", 0, 1, "a", []⟩ : Topic)]).map
        Prod.fst ∧
    ((⟨"0", "Intro Basics", 0, 1, "a", []⟩ : Topic) ∈
        ("intro", [(⟨"0", "Intro Basics", 0, 1, "a", []⟩ : Topic)]).2 ↔
      ("intro", [(⟨"0", "Intro Basics", 0, 1, "a", []⟩ : Topic)]).1 =
        categoryKey (⟨"0", "Intro Basics", 0, 1, "a", []⟩ : Topic)) :=
  ⟨(categorizeTopics_partition [⟨"0", "Intro Basics", 0, 1, "a", []⟩]).1
      _ (by decide),
   (categorizeTopics_partition [⟨"0", "Intro Basics", 0, 1, "a", []⟩]).2.2.1
      _ (by decide),
   (categorizeTopics_partition [⟨"0", "Intro Basics", 0, 1, "a", []⟩]).2.2.2.1
      _ (by decide) _ (by decide)⟩

/-- Naturals survive the JSON number round trip. -/
theorem decNat_encNat (n : ℕ) : decNat (encNat n) = some n := by
  simp [decNat, encNat]

/-- A mapped encoding decodes back to the original list when each element
does. -/
theorem decodeListAux_map_roundtrip {α : Type} (enc : α → JValue)
    (dec : JValue → Option α) (h : ∀ a, dec (enc a) = some a) (l : List α) :
    decodeListAux dec (l.map enc) = some l := by
  induction l with
  | nil => rfl
  | cons a t ih => simp [decodeListAux, h, ih]

/-- Transcript segments survive the JSON round trip. -/
theorem decodeSegment_encodeSegment (s : TranscriptionSegment) :
    decodeSegment (encodeSegment s) = some s := by
  simp [decodeSegment, encodeSegment, jGet, List.lookup]

/-- Formatted topics survive the JSON round trip. -/
theorem decodeTopic_encodeTopic (t : Topic) :
    decodeTopic (encodeTopic t) = some t := by
  simp [decodeTopic, encodeTopic, jGet, List.lookup, decodeList,
    decodeListAux_map_roundtrip encNat decNat decNat_encNat]

/-- The stored transcript-plus-topics value survives the JSON round trip. -/
theorem deserialize_serialize (r : TranscriptionResponse) :
    deserializeResponse (serializeResponse r) = some r := by
  simp [deserializeResponse, serializeResponse, jGet, List.lookup, decodeList,
    decodeListAux_map_roundtrip encodeSegment decodeSegment decodeSegment_encodeSegment,
    decodeListAux_map_roundtrip encodeTopic decodeTopic decodeTopic_encodeTopic]

/-- C7: the transcript-plus-topics value written by the processor under the
storage key "lectureTranscript" round-trips: reading the key back gives
exactly the serialized value just written, deserializing recovers the
original `TranscriptionResponse`, and so the navigator reading the same key
after the write sees the value that was saved. -/
theorem transcript_storage_roundtrip (r : TranscriptionResponse)
    (store : List (String × JValue)) :
    storageGet (storageSet store "lectureTranscript" (serializeResponse r))
        "lectureTranscript" = some (serializeResponse r) ∧
    deserializeResponse (serializeResponse r) = some r ∧
    (storageGet (storageSet store "lectureTranscript" (serializeResponse r))
        "lectureTranscript").bind deserializeResponse = some r := by
  have hget : storageGet
      (storageSet store "lectureTranscript" (serializeResponse r))
      "lectureTranscript" = some (serializeResponse r) := by
    simp [storageGet, storageSet, List.lookup]
  refine ⟨hget, deserialize_serialize r, ?_⟩
  rw [hget]
  simp [deserialize_serialize r]

end LectAudio

